import Mathlib

/-!
Verification development for the WebWatchAgent job-processing core
(watcher, worker and file utilities). The definitions below are a shallow
embedding of the JavaScript source: the request validator, the inbox
claim handler, the concurrency limiter, the session-context registry,
the artifact write sequence of the worker, the scripted action executor,
the mute-click heuristic, the extraction pass, the canvas-paint poll and
the path handling of the file utilities.
-/

namespace WebWatch

/- ### JavaScript-style helpers

`jsTruthyStr` models the truthiness test of a JS string-valued field
(absent or empty string is falsy).  `jsOr` models `a || b` on strings. -/

def jsTruthyStr : Option String → Bool
  | some s => !s.isEmpty
  | none => false

def jsOr (o : Option String) (d : String) : String :=
  match o with
  | some s => if s.isEmpty then d else s
  | none => d

/-- ASCII lowercasing of a character, as applied by `toLowerCase` on the
button texts fed to the mute heuristic. -/
def lowerChar (c : Char) : Char :=
  if 'A' ≤ c ∧ c ≤ 'Z' then Char.ofNat (c.toNat + 32) else c

def lowerStr (s : String) : String :=
  String.mk (s.data.map lowerChar)

/-- Substring containment: `containsSub s pat` holds when `pat` occurs
somewhere in `s`.  This is the semantics of testing an alternation-free
literal regex fragment against `s`. -/
def containsSub (s pat : String) : Bool :=
  s.data.tails.any (fun t => pat.data.isPrefixOf t)

/-- `containsAny s pats` models `/p1|p2|.../.test(s)` for literal
alternatives `p1, p2, ...`. -/
def containsAny (s : String) (pats : List String) : Bool :=
  pats.any (fun p => containsSub s p)

/- ### files.js -/

/-- A filesystem operation observable while an artifact is produced. -/
inductive FsOp
  | writeTmp (tmp : String)
  | rename (tmp dst : String)
  | writeDirect (dst : String)
deriving DecidableEq

/-- `writeFileAtomic` from files.js: write a hidden same-directory
temporary file named `.<base>.tmp-<uuid>` and then rename it onto the
destination in a single step. -/
def writeFileAtomicOps (dst uuid : String) : List FsOp :=
  [FsOp.writeTmp ("." ++ dst ++ ".tmp-" ++ uuid),
   FsOp.rename ("." ++ dst ++ ".tmp-" ++ uuid) dst]

/-- Split a path string at the separator (structural recursion over the
characters, agreeing with splitting on `'/'`). -/
def splitSlashAux : List Char → List Char → List String
  | [], cur => [String.mk cur.reverse]
  | c :: rest, cur =>
      if c = '/' then String.mk cur.reverse :: splitSlashAux rest []
      else splitSlashAux rest (c :: cur)

def splitSlash (s : String) : List String :=
  splitSlashAux s.data []

/-- Path normalization at the segment level, as performed by Node's
`path.join`/`path.resolve`: empty and `.` segments vanish and `..` pops
the previous segment (at the root it stays at the root).  A path is a
list of segments below the root. -/
def normSegs (segs : List String) : List String :=
  segs.foldl
    (fun acc seg =>
      if seg = "" ∨ seg = "." then acc
      else if seg = ".." then acc.dropLast
      else acc ++ [seg]) []

/-- `path.join(responsesDir, id)` as used by the worker to compute the
output directory: plain concatenation followed by normalization, with no
containment check. -/
def joinOutDir (responsesDir : List String) (id : String) : List String :=
  normSegs (responsesDir ++ splitSlash id)

/-- `safeJoin` from files.js: resolve the target against the base and
throw unless the resolved path stays inside the base. -/
def safeJoin (baseDir : List String) (target : String) : Except String (List String) :=
  let resolved := normSegs (baseDir ++ splitSlash target)
  if baseDir.isPrefixOf resolved then Except.ok resolved
  else Except.error "Unsafe path resolution"

/- ### Validator (normalizeRequest in watcher.js)

The embedded `Job` carries the fields this development reasons about;
the remaining pass-through fields of the source record (viewport, user
agent, extra headers, diagnostic flags, ...) do not affect any claim. -/

structure RawRequest where
  id : Option String := none
  op : Option String := none
  url : Option String := none
  html : Option String := none
  fullPage : Option Bool := none
  screenshot : Option Bool := none
  htmlOutput : Option Bool := none
  waitUntil : Option String := none
  timeoutMs : Option Nat := none
deriving DecidableEq

structure Job where
  id : String
  op : String
  url : Option String
  html : Option String
  fullPage : Bool
  screenshot : Bool
  htmlOutput : Bool
  waitUntil : String
  timeoutMs : Nat
deriving DecidableEq

/-- `normalizeRequest(raw)`: the id is the caller-supplied id when truthy,
else a fresh generated one; the operation kind must be `render_url` or
`render_html` and its payload must be present; defaults are applied to
the render configuration. -/
def normalizeRequest (raw : RawRequest) (fresh : String) : Except String Job :=
  let id := jsOr raw.id fresh
  if raw.op ≠ some "render_url" ∧ raw.op ≠ some "render_html" then
    Except.error "op must be \"render_url\" or \"render_html\""
  else if raw.op = some "render_url" ∧ ¬ jsTruthyStr raw.url = true then
    Except.error "url is required for op=render_url"
  else if raw.op = some "render_html" ∧ ¬ jsTruthyStr raw.html = true then
    Except.error "html is required for op=render_html"
  else
    Except.ok
      { id := id
        op := (raw.op.getD "")
        url := raw.url
        html := raw.html
        fullPage := raw.fullPage.getD true
        screenshot := raw.screenshot.getD true
        htmlOutput := raw.htmlOutput.getD true
        waitUntil := jsOr raw.waitUntil "networkidle2"
        timeoutMs := raw.timeoutMs.getD 30000 }

/- ### Claim Manager (the watcher's add handler) -/

/-- Externally visible steps of the `watcher.on('add')` handler. -/
inductive HandlerEvent
  | renameToProcessing (ok : Bool)
  | enqueued (id : String)
  | syntheticErrorArtifacts (msg : String)
  | inboxUnlinked
deriving DecidableEq, BEq

/-- One run of the add handler for one delivered inbox file.
`renameOk` records whether the atomic relocation into
`requests/processing/<id>.json` succeeded; the source wraps the rename
in a try/catch whose catch block is empty, and then enqueues the job
unconditionally.  On a parse/validation error the handler writes
synthetic error artifacts and unlinks the inbox file without claiming. -/
def handleAdd (raw : RawRequest) (fresh : String) (renameOk : Bool) : List HandlerEvent :=
  match normalizeRequest raw fresh with
  | Except.ok req => [HandlerEvent.renameToProcessing renameOk, HandlerEvent.enqueued req.id]
  | Except.error msg => [HandlerEvent.syntheticErrorArtifacts msg, HandlerEvent.inboxUnlinked]

/- ### Concurrency Limiter (createLimiter in watcher.js) -/

/-- The limiter's observable state: the number of running tasks, the FIFO
wait list, the dispatch order so far, and (ghost) the submission order. -/
structure LimiterState where
  active : Nat
  queue : List Nat
  started : List Nat
  submitted : List Nat
deriving DecidableEq

def initLimiter : LimiterState := ⟨0, [], [], []⟩

/-- Transitions of `createLimiter(limit)`: `enqueue` pushes at the tail of
the wait list; `runNext` dispatches the head of the wait list only while
`active < limit`, incrementing `active`; a finishing task decrements
`active`. -/
inductive LimiterStep (limit : Nat) : LimiterState → LimiterState → Prop
  | enqueue (s : LimiterState) (t : Nat) :
      LimiterStep limit s ⟨s.active, s.queue ++ [t], s.started, s.submitted ++ [t]⟩
  | dispatch (s : LimiterState) (t : Nat) (rest : List Nat) :
      s.active < limit → s.queue = t :: rest →
      LimiterStep limit s ⟨s.active + 1, rest, s.started ++ [t], s.submitted⟩
  | complete (s : LimiterState) :
      0 < s.active →
      LimiterStep limit s ⟨s.active - 1, s.queue, s.started, s.submitted⟩

/-- States reachable from the freshly created limiter. -/
inductive LimiterReach (limit : Nat) : LimiterState → Prop
  | init : LimiterReach limit initLimiter
  | step {s t : LimiterState} :
      LimiterReach limit s → LimiterStep limit s t → LimiterReach limit t

/- ### Session Context Registry (sessionContexts in watcher.js)

Each job body with a session id runs:
`get` the map entry; if absent, `await createIncognitoBrowserContext()`
(a suspension point) and then `set` the map entry.  A task is therefore
in one of three states: about to check, suspended in the create call, or
finished holding a context. -/

inductive TaskPC
  | checking
  | creating
  | finished (ctx : Nat)
deriving DecidableEq

structure RegistryState where
  reg : Option Nat
  created : Nat
  pcA : TaskPC
  pcB : TaskPC
deriving DecidableEq

/-- One atomic block of a task: the synchronous map check, or the
creation resolving followed by the synchronous map set.  Contexts are
numbered by creation order. -/
def taskStep (reg : Option Nat) (created : Nat) : TaskPC → Option Nat × Nat × TaskPC
  | TaskPC.checking =>
      match reg with
      | some c => (reg, created, TaskPC.finished c)
      | none => (reg, created, TaskPC.creating)
  | TaskPC.creating => (some created, created + 1, TaskPC.finished created)
  | TaskPC.finished c => (reg, created, TaskPC.finished c)

/-- Run one scheduler step: `true` runs task A, `false` runs task B. -/
def sysStep (s : RegistryState) (runA : Bool) : RegistryState :=
  if runA then
    let r := taskStep s.reg s.created s.pcA
    ⟨r.1, r.2.1, r.2.2, s.pcB⟩
  else
    let r := taskStep s.reg s.created s.pcB
    ⟨r.1, r.2.1, s.pcA, r.2.2⟩

def runSched (sched : List Bool) (s : RegistryState) : RegistryState :=
  sched.foldl sysStep s

/-- Two concurrent first callers for the same fresh session id. -/
def initRegistry : RegistryState := ⟨none, 0, TaskPC.checking, TaskPC.checking⟩

/-- The interleaving where both tasks pass the map check before either
create call resolves. -/
def raceSchedule : List Bool := [true, false, true, false]

/- ### Output Writer (processRequest in worker.js) -/

/-- The artifacts a job run writes, in program order. -/
inductive Artifact
  | metaStart
  | stepShot (i : Nat)
  | pageHtml
  | screenshotPng
  | extractJson
  | metaFinal
  | consoleLog
  | networkLog
  | doneMarker (status : String) (err : Option String)
deriving DecidableEq

inductive WriteMethod
  | tmpRename
  | direct
deriving DecidableEq

/-- How each artifact reaches the disk: meta, page content, extraction
results, diagnostic logs and the completion marker go through
`writeFileAtomic`/`writeJSONAtomic`; the image snapshots are written
directly by `page.screenshot({ path })`. -/
def methodOf : Artifact → WriteMethod
  | Artifact.stepShot _ => WriteMethod.direct
  | Artifact.screenshotPng => WriteMethod.direct
  | _ => WriteMethod.tmpRename

def isImageWrite : Artifact → Bool
  | Artifact.stepShot _ => true
  | Artifact.screenshotPng => true
  | _ => false

def isDone : Artifact → Bool
  | Artifact.doneMarker _ _ => true
  | _ => false

/-- The configuration and outcome of one `processRequest` run, as far as
artifact writes are concerned.  `snapCount` is the number of per-step
snapshots the action loop produced; `abortAt` is how many body writes
had completed when the error (if any) was thrown. -/
structure RunCfg where
  snapCount : Nat
  htmlOutput : Bool
  screenshot : Bool
  hasExtract : Bool
  errorMessage : Option String
  abortAt : Nat
  hasConsole : Bool
  hasNetwork : Bool
deriving DecidableEq

/-- Body writes of a fully successful run, in source order: per-step
snapshots during the action loop, then `page.html`, then
`screenshot.png`, then `extract.json`. -/
def fullBody (cfg : RunCfg) : List Artifact :=
  (List.range cfg.snapCount).map Artifact.stepShot
    ++ (if cfg.htmlOutput then [Artifact.pageHtml] else [])
    ++ (if cfg.screenshot then [Artifact.screenshotPng] else [])
    ++ (if cfg.hasExtract then [Artifact.extractJson] else [])

/-- A thrown error aborts the rest of the try body; the writes already
performed stay. -/
def bodyWrites (cfg : RunCfg) : List Artifact :=
  match cfg.errorMessage with
  | none => fullBody cfg
  | some _ => (fullBody cfg).take cfg.abortAt

/-- The completion marker: `{status: 'ok'}` on success, or
`{status: 'error', error: message}` on failure. -/
def doneOf : Option String → Artifact
  | none => Artifact.doneMarker "ok" none
  | some m => Artifact.doneMarker "error" (some m)

/-- Everything `processRequest` writes before the completion marker:
initial meta, the try-body writes, the final meta rewrite, then the
best-effort console and network logs. -/
def tracePrefix (cfg : RunCfg) : List Artifact :=
  [Artifact.metaStart] ++ bodyWrites cfg ++ [Artifact.metaFinal]
    ++ (if cfg.hasConsole then [Artifact.consoleLog] else [])
    ++ (if cfg.hasNetwork then [Artifact.networkLog] else [])

/-- The full ordered artifact write trace of one `processRequest` run. -/
def runTrace (cfg : RunCfg) : List Artifact :=
  tracePrefix cfg ++ [doneOf cfg.errorMessage]

/-- A successful run that requested both the content and the image
snapshot. -/
def cfgShot : RunCfg :=
  { snapCount := 0, htmlOutput := true, screenshot := true, hasExtract := false,
    errorMessage := none, abortAt := 0, hasConsole := false, hasNetwork := false }

/- ### Action executor (runActions in worker.js) -/

/-- A raw action object from the request JSON: every field is optional,
since the source inspects an untyped object. -/
structure ActionObj where
  type : Option String := none
  selector : Option String := none
  text : Option String := none
  x : Option Int := none
  y : Option Int := none
  ms : Option Int := none
  fn : Option String := none
  key : Option String := none
  file : Option String := none
  timeoutMs : Option Nat := none
  intervalMs : Option Nat := none
  delay : Option Nat := none
deriving DecidableEq

/-- Operations the action loop performs against the page. -/
inductive Effect
  | waitForSelector (sel : String) (timeout : Nat)
  | click (sel : String)
  | hover (sel : String)
  | typeText (sel text : String) (delay : Nat)
  | clickAt (x y : Int)
  | waitTime (ms : Int)
  | waitFn (fn : String) (timeout : Nat)
  | canvasPaintWait (timeout interval : Nat)
  | muteHeuristicRun
  | elementShot (sel file : String)
  | keyPress (key : String) (delay : Nat)
  | stepShot (i : Nat)
deriving DecidableEq

/-- `String(i + 1).padStart(2, '0')`. -/
def pad2 (n : Nat) : String :=
  if n < 10 then "0" ++ toString n else toString n

/-- Default file name of an element snapshot at loop index `i`. -/
def elementFileName (i : Nat) (a : ActionObj) : String :=
  jsOr a.file ("step-" ++ pad2 (i + 1) ++ "-element.png")

/- The guards of the branches of `runActions`, one per recognized action
kind, exactly mirroring the conditions of the if/else chain. -/

def gWaitForSelector (a : ActionObj) : Bool :=
  (a.type.getD "" == "waitForSelector") && jsTruthyStr a.selector

def gClick (a : ActionObj) : Bool :=
  (a.type.getD "" == "click") && jsTruthyStr a.selector

def gHover (a : ActionObj) : Bool :=
  (a.type.getD "" == "hover") && jsTruthyStr a.selector

def gType (a : ActionObj) : Bool :=
  (a.type.getD "" == "type") && jsTruthyStr a.selector && a.text.isSome

def gClickAt (a : ActionObj) : Bool :=
  (a.type.getD "" == "clickAt") && a.x.isSome && a.y.isSome

def gWaitForTime (a : ActionObj) : Bool :=
  (a.type.getD "" == "waitForTime") && a.ms.isSome

def gWaitForFunction (a : ActionObj) : Bool :=
  (a.type.getD "" == "waitForFunction") && jsTruthyStr a.fn

def gWaitForCanvasPaint (a : ActionObj) : Bool :=
  a.type.getD "" == "waitForCanvasPaint"

def gMuteHeuristic (a : ActionObj) : Bool :=
  a.type.getD "" == "muteHeuristic"

def gScreenshotElement (a : ActionObj) : Bool :=
  (a.type.getD "" == "screenshotElement") && jsTruthyStr a.selector

def gPress (a : ActionObj) : Bool :=
  (a.type.getD "" == "press") && jsTruthyStr a.key

/-- An action object matches some branch of the if/else chain. -/
def recognized (a : ActionObj) : Bool :=
  gWaitForSelector a || gClick a || gHover a || gType a || gClickAt a
    || gWaitForTime a || gWaitForFunction a || gWaitForCanvasPaint a
    || gMuteHeuristic a || gScreenshotElement a || gPress a

/-- The page operations one loop iteration performs for action `a` at
index `i` (not counting the optional per-step snapshot).  An object
matching no branch falls through the whole chain and contributes
nothing. -/
def stepOps (i : Nat) (a : ActionObj) : List Effect :=
  if gWaitForSelector a then
    [Effect.waitForSelector (a.selector.getD "") (a.timeoutMs.getD 30000)]
  else if gClick a then
    [Effect.waitForSelector (a.selector.getD "") (a.timeoutMs.getD 30000),
     Effect.click (a.selector.getD "")]
  else if gHover a then
    [Effect.waitForSelector (a.selector.getD "") (a.timeoutMs.getD 30000),
     Effect.hover (a.selector.getD "")]
  else if gType a then
    [Effect.waitForSelector (a.selector.getD "") (a.timeoutMs.getD 30000),
     Effect.typeText (a.selector.getD "") (a.text.getD "") (a.delay.getD 0)]
  else if gClickAt a then
    [Effect.clickAt (a.x.getD 0) (a.y.getD 0)]
  else if gWaitForTime a then
    [Effect.waitTime (a.ms.getD 0)]
  else if gWaitForFunction a then
    [Effect.waitFn (a.fn.getD "") (a.timeoutMs.getD 30000)]
  else if gWaitForCanvasPaint a then
    [Effect.canvasPaintWait (a.timeoutMs.getD 60000) (a.intervalMs.getD 500)]
  else if gMuteHeuristic a then
    [Effect.muteHeuristicRun]
  else if gScreenshotElement a then
    [Effect.waitForSelector (a.selector.getD "") (a.timeoutMs.getD 30000),
     Effect.elementShot (a.selector.getD "") (elementFileName i a)]
  else if gPress a then
    [Effect.keyPress (a.key.getD "") (a.delay.getD 0)]
  else []

/-- Execute a list of page operations against a fallible page, stopping
at the first failure. -/
def execOps (exec : Effect → Except String Unit) : List Effect → Except String Unit
  | [] => Except.ok ()
  | e :: rest =>
      match exec e with
      | Except.error m => Except.error m
      | Except.ok _ => execOps exec rest

/-- `runActions`: iterate the action list from loop index `i`; each
iteration performs the action's operations, then, if step tracing was
requested, a full-page snapshot named after the (1-based) index; any
failure aborts the remaining sequence.  Returns the ordered trace of
performed operations. -/
def runActions (exec : Effect → Except String Unit) (snap : Bool) :
    Nat → List ActionObj → Except String (List Effect)
  | _, [] => Except.ok []
  | i, a :: rest =>
      match execOps exec (stepOps i a) with
      | Except.error m => Except.error m
      | Except.ok _ =>
          match (if snap then exec (Effect.stepShot (i + 1)) else Except.ok ()) with
          | Except.error m => Except.error m
          | Except.ok _ =>
              match runActions exec snap (i + 1) rest with
              | Except.error m => Except.error m
              | Except.ok tr =>
                  Except.ok (stepOps i a
                    ++ (if snap then [Effect.stepShot (i + 1)] else []) ++ tr)

def badClick : ActionObj := { type := some "click" }

def badClickAt : ActionObj := { type := some "clickAt", x := some 3 }

def unknownAction : ActionObj := { type := some "frobnicate" }

/- ### Mute heuristic (clickMuteHeuristic in worker.js) -/

def soundTerms : List String := ["sound", "audio", "music", "zvuk", "zvuky", "hudba"]

def negTerms : List String := ["no", "off", "mute", "disable", "bez", "vyp"]

def acceptTerms : List String := ["accept", "ok", "yes", "ano"]

/-- The score of one clickable-looking element, computed from its
lowercased text: +2 for a sound/audio/music term, +3 for a
negation/mute/off term, -1 for an acceptance term. -/
def muteScore (text : String) : Int :=
  let t := lowerStr text
  (if containsAny t soundTerms then 2 else 0)
    + (if containsAny t negTerms then 3 else 0)
    - (if containsAny t acceptTerms then 1 else 0)

/-- `bestScore` of the source: 0 while no element is selected, else the
selected element's score. -/
def bestScoreVal : Option (Nat × Int) → Int
  | none => 0
  | some p => p.2

/-- The selection loop: keep the first element whose score strictly
exceeds the best score so far. -/
def bestAux : List Int → Nat → Option (Nat × Int) → Option (Nat × Int)
  | [], _, acc => acc
  | s :: rest, i, acc =>
      if bestScoreVal acc < s then bestAux rest (i + 1) (some (i, s))
      else bestAux rest (i + 1) acc

/-- The heuristic over the candidate texts, returning the index of the
clicked element, or `none` for a no-op: the best-scoring element is
clicked only when its score is at least 3. -/
def clickMuteHeuristic (texts : List String) : Option Nat :=
  match bestAux (texts.map muteScore) 0 none with
  | some p => if 3 ≤ p.2 then some p.1 else none
  | none => none

/- ### Extraction pass (performExtracts in worker.js) -/

/-- A DOM element as far as extraction is concerned. -/
structure Elem where
  textContent : String
  attrs : List (String × String)
  outerHTML : String

/-- `querySelectorAll`: the elements a selector matches, in document
order. -/
abbrev Page := String → List Elem

def getAttribute (e : Elem) (name : String) : Option String :=
  (e.attrs.find? (fun p => p.1 == name)).map (fun p => p.2)

inductive ExtractSpec
  | text (selector : String) (all : Bool) (name : Option String)
  | attr (selector : String) (name : String) (all : Bool) (key : Option String)
  | html (selector : String) (all : Bool) (name : Option String)
  | existsSel (selector : String) (name : Option String)

inductive ExtractValue
  | str (s : String)
  | strList (l : List String)
  | optStrList (l : List (Option String))
  | bool (b : Bool)
  | null
deriving DecidableEq

structure ExtractResult where
  type : String
  name : Option String := none
  key : Option String := none
  selector : String
  value : ExtractValue
deriving DecidableEq

/-- One extraction spec evaluated against the final page state. -/
def extractOne (page : Page) : ExtractSpec → ExtractResult
  | ExtractSpec.text sel all name =>
      let els := page sel
      let value :=
        if all then ExtractValue.strList (els.map (fun e => e.textContent.trim))
        else
          match els.head? with
          | some e => ExtractValue.str e.textContent.trim
          | none => ExtractValue.null
      { type := "text", name := name, selector := sel, value := value }
  | ExtractSpec.attr sel nm all key =>
      let els := page sel
      let value :=
        if all then ExtractValue.optStrList (els.map (fun e => getAttribute e nm))
        else
          match els.head? with
          | some e =>
              match getAttribute e nm with
              | some v => ExtractValue.str v
              | none => ExtractValue.null
          | none => ExtractValue.null
      { type := "attr", key := some (jsOr key nm), selector := sel, value := value }
  | ExtractSpec.html sel all name =>
      let els := page sel
      let value :=
        if all then ExtractValue.strList (els.map (fun e => e.outerHTML))
        else
          match els.head? with
          | some e => ExtractValue.str e.outerHTML
          | none => ExtractValue.null
      { type := "html", name := name, selector := sel, value := value }
  | ExtractSpec.existsSel sel name =>
      { type := "exists", name := name, selector := sel,
        value := ExtractValue.bool (!(page sel).isEmpty) }

/-- The extraction pass: one result per spec, in spec order. -/
def performExtracts (page : Page) (specs : List ExtractSpec) : List ExtractResult :=
  specs.map (extractOne page)

/- ### Canvas paint poll (waitForCanvasPaint in worker.js) -/

structure RGBA where
  r : Nat
  g : Nat
  b : Nat
  a : Nat
deriving DecidableEq

/-- What one in-page probe observes: no canvas at all, a canvas without a
2D raster context, a canvas whose pixels cannot be read (cross-origin
taint), or the sampled pixel data of the bounded corner region. -/
inductive CanvasObs
  | noCanvas
  | noCtx2d
  | tainted
  | pixels (data : List RGBA)

/-- A pixel counts as painted when it is not fully transparent and not
pure white. -/
def paintedPixel (p : RGBA) : Bool :=
  (p.a != 0) && !((p.r == 255) && (p.g == 255) && (p.b == 255))

/-- The probe result: presence alone suffices for a canvas without a
readable 2D context or with tainted pixels; otherwise some sampled pixel
must be painted; no canvas means not painted. -/
def paintedObs : CanvasObs → Bool
  | CanvasObs.noCanvas => false
  | CanvasObs.noCtx2d => true
  | CanvasObs.tainted => true
  | CanvasObs.pixels data => data.any paintedPixel

/-- The polling loop: probe, return on a painted observation, raise the
timeout error once past the deadline, else sleep one interval and poll
again.  `obs k` is what the probe sees at elapsed time `k`. -/
def waitForCanvasPaint (obs : Nat → CanvasObs) (timeoutMs intervalMs : Nat)
    (hpos : 0 < intervalMs) (elapsed : Nat) : Except String Nat :=
  if paintedObs (obs elapsed) then Except.ok elapsed
  else if _h : timeoutMs < elapsed then Except.error "waitForCanvasPaint timeout"
  else waitForCanvasPaint obs timeoutMs intervalMs hpos (elapsed + intervalMs)
termination_by timeoutMs + 1 - elapsed
decreasing_by simp_wf; omega

/- ### Concrete inputs used in the claim theorems -/

def dupRaw : RawRequest :=
  { id := some "job-1", op := some "render_url", url := some "http://example.com" }

def evilRaw : RawRequest :=
  { id := some "../../tmp/evil", op := some "render_html", html := some "<h1>x</h1>" }

def responsesSegs : List String := ["work", "responses"]

/- ### Helper lemmas -/

theorem last_append_single {α : Type} (l : List α) (a : α) :
    (l ++ [a]).getLast? = some a := by
  simp [List.getLast?_concat]

theorem mem_fullBody_not_done (cfg : RunCfg) (a : Artifact) (ha : a ∈ fullBody cfg) :
    isDone a = false := by
  simp only [fullBody, List.mem_append, List.mem_map] at ha
  rcases ha with ((⟨i, _, hi⟩ | h) | h) | h
  · subst hi; rfl
  · rcases cfg.htmlOutput <;> simp_all [isDone]
  · rcases cfg.screenshot <;> simp_all [isDone]
  · rcases cfg.hasExtract <;> simp_all [isDone]

theorem mem_tracePrefix_not_done (cfg : RunCfg) (a : Artifact) (ha : a ∈ tracePrefix cfg) :
    isDone a = false := by
  simp only [tracePrefix, List.mem_append, List.mem_singleton] at ha
  rcases ha with (((h | h) | h) | h) | h
  · subst h; rfl
  · exact mem_fullBody_not_done cfg a (by
      revert h
      unfold bodyWrites
      cases cfg.errorMessage with
      | none => exact fun h => h
      | some m => exact fun h => List.take_subset _ _ h)
  · subst h; rfl
  · rcases cfg.hasConsole <;> simp_all [isDone]
  · rcases cfg.hasNetwork <;> simp_all [isDone]

theorem bestAux_bounds (scores : List Int) :
    ∀ (i : Nat) (acc : Option (Nat × Int)),
      bestScoreVal acc ≤ bestScoreVal (bestAux scores i acc) ∧
      ∀ s ∈ scores, s ≤ bestScoreVal (bestAux scores i acc) := by
  induction scores with
  | nil =>
      intro i acc
      exact ⟨le_refl _, by intro s hs; simp at hs⟩
  | cons s rest ih =>
      intro i acc
      by_cases hc : bestScoreVal acc < s
      · have hrw : bestAux (s :: rest) i acc = bestAux rest (i + 1) (some (i, s)) := by
          simp [bestAux, hc]
        have h1 := ih (i + 1) (some (i, s))
        rw [hrw]
        refine ⟨le_trans (le_of_lt hc) h1.1, ?_⟩
        intro x hx
        rcases List.mem_cons.mp hx with h | h
        · subst h; exact h1.1
        · exact h1.2 x h
      · have hrw : bestAux (s :: rest) i acc = bestAux rest (i + 1) acc := by
          simp [bestAux, hc]
        have h1 := ih (i + 1) acc
        rw [hrw]
        refine ⟨h1.1, ?_⟩
        intro x hx
        rcases List.mem_cons.mp hx with h | h
        · subst h; exact le_trans (not_lt.mp hc) h1.1
        · exact h1.2 x h

theorem bestAux_mem (scores : List Int) :
    ∀ (i : Nat) (acc : Option (Nat × Int)) (k : Nat) (v : Int),
      bestAux scores i acc = some (k, v) →
      acc = some (k, v) ∨ ∃ j, k = i + j ∧ scores[j]? = some v := by
  induction scores with
  | nil =>
      intro i acc k v h
      left
      simpa [bestAux] using h
  | cons s rest ih =>
      intro i acc k v h
      by_cases hc : bestScoreVal acc < s
      · rw [show bestAux (s :: rest) i acc = bestAux rest (i + 1) (some (i, s)) from by
          simp [bestAux, hc]] at h
        rcases ih (i + 1) (some (i, s)) k v h with h1 | h1
        · right
          injection h1 with h2
          obtain ⟨hk, hv⟩ := Prod.mk.inj h2
          exact ⟨0, by omega, by simp [hv]⟩
        · obtain ⟨j, hk, hv⟩ := h1
          right
          exact ⟨j + 1, by omega, by simpa using hv⟩
      · rw [show bestAux (s :: rest) i acc = bestAux rest (i + 1) acc from by
          simp [bestAux, hc]] at h
        rcases ih (i + 1) acc k v h with h1 | h1
        · left; exact h1
        · obtain ⟨j, hk, hv⟩ := h1
          right
          exact ⟨j + 1, by omega, by simpa using hv⟩

theorem stepOps_malformed (i : Nat) (a : ActionObj) (h : recognized a = false) :
    stepOps i a = [] := by
  unfold recognized at h
  simp only [Bool.or_eq_false_iff] at h
  obtain ⟨⟨⟨⟨⟨⟨⟨⟨⟨⟨h1, h2⟩, h3⟩, h4⟩, h5⟩, h6⟩, h7⟩, h8⟩, h9⟩, h10⟩, h11⟩ := h
  unfold stepOps
  simp [h1, h2, h3, h4, h5, h6, h7, h8, h9, h10, h11]

theorem paint_timeout (obs : Nat → CanvasObs) (t i : Nat) (hpos : 0 < i)
    (hnever : ∀ k, paintedObs (obs k) = false) :
    ∀ (n e : Nat), t + 1 - e ≤ n →
      waitForCanvasPaint obs t i hpos e = Except.error "waitForCanvasPaint timeout" := by
  intro n
  induction n with
  | zero =>
      intro e he
      have h1 : t < e := by omega
      unfold waitForCanvasPaint
      simp [hnever e, h1]
  | succ n ih =>
      intro e he
      unfold waitForCanvasPaint
      by_cases h1 : t < e
      · simp [hnever e, h1]
      · have h2 := ih (e + i) (by omega)
        simp [hnever e, h1, h2]

/- ### Claim theorems -/

/-- C1: the add handler is supposed to skip a job whose claim relocation
failed (lost race / duplicate delivery); in the source the rename
failure is swallowed and the job is enqueued anyway, so a pair of
duplicate deliveries of the same raw file is enqueued and executed
twice. -/
theorem C1_double_processing :
    handleAdd dupRaw "f1" true
      = [HandlerEvent.renameToProcessing true, HandlerEvent.enqueued "job-1"]
    ∧ handleAdd dupRaw "f2" false
      = [HandlerEvent.renameToProcessing false, HandlerEvent.enqueued "job-1"]
    ∧ (handleAdd dupRaw "f1" true ++ handleAdd dupRaw "f2" false).count
        (HandlerEvent.enqueued "job-1") = 2 := by
  decide

/-- C2: the session registry's check-then-create-then-publish has a
suspension point between the map check and the map set, so two
concurrent first callers for the same new session id can both miss the
check: the interleaved schedule creates two contexts and the callers
finish holding different contexts, while a sequential schedule creates
one shared context. -/
theorem C2_registry_race :
    (runSched raceSchedule initRegistry).created = 2
    ∧ (runSched raceSchedule initRegistry).pcA = TaskPC.finished 0
    ∧ (runSched raceSchedule initRegistry).pcB = TaskPC.finished 1
    ∧ (runSched raceSchedule initRegistry).pcA ≠ (runSched raceSchedule initRegistry).pcB
    ∧ (runSched [true, true, false] initRegistry).created = 1
    ∧ (runSched [true, true, false] initRegistry).pcA
        = (runSched [true, true, false] initRegistry).pcB := by
  decide

/-- C3 counterexample: in a run that requested an image snapshot, the
trace contains the `screenshot.png` write, and that write is a direct
write by the rendering engine, not a temp-file-plus-rename — so not
every individual artifact write is atomic. -/
theorem C3_counterexample :
    Artifact.screenshotPng ∈ runTrace cfgShot
    ∧ methodOf Artifact.screenshotPng = WriteMethod.direct
    ∧ methodOf Artifact.screenshotPng ≠ WriteMethod.tmpRename := by
  decide

/-- C3 (amended): every artifact write that is not an image snapshot
(metadata, content snapshot, extraction results, diagnostic logs,
completion marker) goes through the temp-file-then-single-rename
helper, whose operation sequence is exactly a same-directory hidden
temp write followed by one rename; the image snapshots
(`screenshot.png` and the per-step snapshots) are direct writes. -/
theorem C3_amended_atomicity (cfg : RunCfg) :
    (∀ a ∈ runTrace cfg, isImageWrite a = false → methodOf a = WriteMethod.tmpRename)
    ∧ (∀ a ∈ runTrace cfg, isImageWrite a = true → methodOf a = WriteMethod.direct)
    ∧ ∀ dst uuid, writeFileAtomicOps dst uuid =
        [FsOp.writeTmp ("." ++ dst ++ ".tmp-" ++ uuid),
         FsOp.rename ("." ++ dst ++ ".tmp-" ++ uuid) dst] := by
  refine ⟨?_, ?_, fun dst uuid => rfl⟩
  · intro a _ hni
    cases a <;> simp_all [methodOf, isImageWrite]
  · intro a _ hi
    cases a <;> simp_all [methodOf, isImageWrite]

theorem C3_amended_atomicity_witness :
    methodOf Artifact.metaStart = WriteMethod.tmpRename
    ∧ methodOf Artifact.screenshotPng = WriteMethod.direct
    ∧ writeFileAtomicOps "done.json" "u1" =
        [FsOp.writeTmp ".done.json.tmp-u1", FsOp.rename ".done.json.tmp-u1" "done.json"] :=
  ⟨(C3_amended_atomicity cfgShot).1 Artifact.metaStart (by decide) rfl,
   (C3_amended_atomicity cfgShot).2.1 Artifact.screenshotPng (by decide) rfl,
   (C3_amended_atomicity cfgShot).2.2 "done.json" "u1"⟩

/-- C4: for every run configuration and outcome, the completion marker
is written, it is the last artifact write of the run, it is the only
marker write, and it carries status ok on success and status error with
the error message on failure. -/
theorem C4_marker_last (cfg : RunCfg) :
    (runTrace cfg).getLast? = some (doneOf cfg.errorMessage)
    ∧ (runTrace cfg).countP isDone = 1
    ∧ doneOf none = Artifact.doneMarker "ok" none
    ∧ ∀ m, doneOf (some m) = Artifact.doneMarker "error" (some m) := by
  refine ⟨?_, ?_, rfl, fun m => rfl⟩
  · exact last_append_single (tracePrefix cfg) (doneOf cfg.errorMessage)
  · unfold runTrace
    rw [List.countP_append]
    have h0 : (tracePrefix cfg).countP isDone = 0 := by
      rw [List.countP_eq_zero]
      intro a ha
      simp [mem_tracePrefix_not_done cfg a ha]
    have h1 : ([doneOf cfg.errorMessage] : List Artifact).countP isDone = 1 := by
      cases he : cfg.errorMessage <;> simp [doneOf, isDone, List.countP_cons]
    omega

/-- C5: in every state the limiter can reach, the number of running
tasks never exceeds the configured bound, and the dispatch order is a
prefix of the submission order followed by the still-waiting FIFO queue
(dispatch is strictly FIFO by submission, taking the oldest waiting
task). -/
theorem C5_limiter_invariant (limit : Nat) (s : LimiterState)
    (h : LimiterReach limit s) :
    s.active ≤ limit ∧ s.submitted = s.started ++ s.queue := by
  induction h with
  | init => exact ⟨Nat.zero_le _, rfl⟩
  | step _ hstep ih =>
      cases hstep with
      | enqueue t =>
          refine ⟨ih.1, ?_⟩
          simp [ih.2]
      | dispatch t rest hlt hq =>
          refine ⟨hlt, ?_⟩
          simp [ih.2, hq]
      | complete hpos =>
          exact ⟨le_trans (Nat.sub_le _ _) ih.1, ih.2⟩

theorem C5_limiter_invariant_witness :
    (⟨1, [], [7], [7]⟩ : LimiterState).active ≤ 1
    ∧ (⟨1, [], [7], [7]⟩ : LimiterState).submitted
        = (⟨1, [], [7], [7]⟩ : LimiterState).started ++ (⟨1, [], [7], [7]⟩ : LimiterState).queue :=
  C5_limiter_invariant 1 ⟨1, [], [7], [7]⟩
    (LimiterReach.step (LimiterReach.step LimiterReach.init (LimiterStep.enqueue initLimiter 7))
      (LimiterStep.dispatch ⟨0, [7], [], [7]⟩ 7 [] (by decide) rfl))

/-- C9: the worker's output directory is the plain join of the responses
root with the caller-supplied id, with no sanitization: the id passes
validation unchanged, the join resolves outside the responses root for
a traversal id, and the unused `safeJoin` guard would have rejected that
very id. -/
theorem C9_outdir_unsanitized :
    (∃ job, normalizeRequest evilRaw "fresh-id" = Except.ok job
      ∧ job.id = "../../tmp/evil")
    ∧ joinOutDir responsesSegs "../../tmp/evil" = ["tmp", "evil"]
    ∧ responsesSegs.isPrefixOf (joinOutDir responsesSegs "../../tmp/evil") = false
    ∧ safeJoin responsesSegs "../../tmp/evil" = Except.error "Unsafe path resolution"
    ∧ ∀ base id, joinOutDir base id = normSegs (base ++ splitSlash id) := by
  refine ⟨⟨_, rfl, rfl⟩, by decide, by decide, rfl, fun base id => rfl⟩

/-- C6: when the mute heuristic clicks at all, it clicks an element whose
score is at least 3 and no element scores higher; on the pair
"Sound" (score 2) and "No Sound" (score 5) it clicks the latter, and on
a lone "Accept" (score -1) it performs no click. -/
theorem C6_mute_heuristic :
    (∀ texts k, clickMuteHeuristic texts = some k →
      ∃ v, (texts.map muteScore)[k]? = some v ∧ 3 ≤ v ∧
        ∀ s ∈ texts.map muteScore, s ≤ v)
    ∧ muteScore "Sound" = 2
    ∧ muteScore "No Sound" = 5
    ∧ muteScore "Accept" = -1
    ∧ clickMuteHeuristic ["Sound", "No Sound"] = some 1
    ∧ clickMuteHeuristic ["Accept"] = none := by
  refine ⟨?_, by decide, by decide, by decide, by decide, by decide⟩
  intro texts k h
  unfold clickMuteHeuristic at h
  cases hb : bestAux (texts.map muteScore) 0 none with
  | none => rw [hb] at h; exact absurd h (by simp)
  | some p =>
      rw [hb] at h
      change (if 3 ≤ p.2 then some p.1 else none) = some k at h
      by_cases h3 : 3 ≤ p.2
      · rw [if_pos h3] at h
        injection h with hk
        rcases bestAux_mem (texts.map muteScore) 0 none p.1 p.2 hb with h1 | h1
        · exact absurd h1 (by simp)
        · obtain ⟨j, hj, hv⟩ := h1
          refine ⟨p.2, ?_, h3, ?_⟩
          · rw [← hk]; rw [hj]; simpa using hv
          · intro s hs
            have := (bestAux_bounds (texts.map muteScore) 0 none).2 s hs
            rw [hb] at this
            exact this
      · rw [if_neg h3] at h
        exact absurd h (by simp)

theorem C6_mute_heuristic_witness :
    ∃ v, ((["Sound", "No Sound"] : List String).map muteScore)[1]? = some v ∧ 3 ≤ v ∧
      ∀ s ∈ (["Sound", "No Sound"] : List String).map muteScore, s ≤ v :=
  C6_mute_heuristic.1 ["Sound", "No Sound"] 1 (by decide)

/-- C7: the extraction pass yields one result per spec, mirroring spec
order; a single-selector text/attribute/html spec whose selector matches
nothing yields a null value rather than an error, and an existence spec
always yields a boolean value. -/
theorem C7_extraction :
    (∀ (page : Page) (specs : List ExtractSpec),
      (performExtracts page specs).length = specs.length ∧
      ∀ i : Nat, (performExtracts page specs)[i]? = (specs[i]?).map (extractOne page))
    ∧ (∀ (page : Page) (sel : String) (name : Option String) (nm : String)
        (key : Option String), page sel = [] →
        (extractOne page (ExtractSpec.text sel false name)).value = ExtractValue.null ∧
        (extractOne page (ExtractSpec.attr sel nm false key)).value = ExtractValue.null ∧
        (extractOne page (ExtractSpec.html sel false name)).value = ExtractValue.null)
    ∧ (∀ (page : Page) (sel : String) (name : Option String),
        ∃ b, (extractOne page (ExtractSpec.existsSel sel name)).value = ExtractValue.bool b) := by
  refine ⟨?_, ?_, ?_⟩
  · intro page specs
    refine ⟨by simp [performExtracts], ?_⟩
    intro i
    simp [performExtracts]
  · intro page sel name nm key hempty
    refine ⟨?_, ?_, ?_⟩ <;> simp [extractOne, hempty]
  · intro page sel name
    exact ⟨_, rfl⟩

theorem C7_extraction_witness :
    ((fun _ => []) : Page) "#t" = []
    ∧ (extractOne (fun _ => []) (ExtractSpec.text "#t" false none)).value = ExtractValue.null
    ∧ (extractOne (fun _ => []) (ExtractSpec.attr "#t" "href" false none)).value = ExtractValue.null
    ∧ (extractOne (fun _ => []) (ExtractSpec.html "#t" false none)).value = ExtractValue.null :=
  ⟨rfl, C7_extraction.2.1 (fun _ => []) "#t" none "href" none rfl⟩

/-- C8: a sampled pixel region counts as painted exactly when some pixel
is non-fully-transparent and not pure white; a tainted canvas or one
without a 2D raster context counts as painted by mere presence, and a
missing canvas does not; the poll resolves at a painted observation,
and when no observation is ever painted it raises the timeout error
once the deadline is exceeded. -/
theorem C8_paint_wait :
    (∀ data, paintedObs (CanvasObs.pixels data) = true ↔
      ∃ p ∈ data, p.a ≠ 0 ∧ ¬(p.r = 255 ∧ p.g = 255 ∧ p.b = 255))
    ∧ paintedObs CanvasObs.tainted = true
    ∧ paintedObs CanvasObs.noCtx2d = true
    ∧ paintedObs CanvasObs.noCanvas = false
    ∧ (∀ obs t i hpos e, paintedObs (obs e) = true →
        waitForCanvasPaint obs t i hpos e = Except.ok e)
    ∧ (∀ obs t i hpos e, (∀ k, paintedObs (obs k) = false) →
        waitForCanvasPaint obs t i hpos e = Except.error "waitForCanvasPaint timeout") := by
  have hpix : ∀ p : RGBA,
      paintedPixel p = true ↔ (p.a ≠ 0 ∧ ¬(p.r = 255 ∧ p.g = 255 ∧ p.b = 255)) := by
    intro p
    by_cases ha : p.a = 0 <;> by_cases hr : p.r = 255 <;> by_cases hg : p.g = 255 <;>
      by_cases hb : p.b = 255 <;> simp [paintedPixel, ha, hr, hg, hb]
  refine ⟨?_, rfl, rfl, rfl, ?_, ?_⟩
  · intro data
    rw [show paintedObs (CanvasObs.pixels data) = data.any paintedPixel from rfl,
      List.any_eq_true]
    constructor
    · rintro ⟨p, hp, hx⟩
      exact ⟨p, hp, (hpix p).mp hx⟩
    · rintro ⟨p, hp, hx⟩
      exact ⟨p, hp, (hpix p).mpr hx⟩
  · intro obs t i hpos e hp
    unfold waitForCanvasPaint
    simp [hp]
  · intro obs t i hpos e hnever
    exact paint_timeout obs t i hpos hnever (t + 1 - e) e (le_refl _)

theorem C8_paint_wait_witness :
    waitForCanvasPaint (fun _ => CanvasObs.tainted) 1000 500 (by decide) 0 = Except.ok 0
    ∧ waitForCanvasPaint (fun _ => CanvasObs.noCanvas) 1000 500 (by decide) 0
        = Except.error "waitForCanvasPaint timeout" :=
  ⟨C8_paint_wait.2.2.2.2.1 (fun _ => CanvasObs.tainted) 1000 500 (by decide) 0 rfl,
   C8_paint_wait.2.2.2.2.2 (fun _ => CanvasObs.noCanvas) 1000 500 (by decide) 0 (fun _ => rfl)⟩

/-- C10: an action object matching no branch of the executor's chain
(unrecognized type, or a recognized type with its required fields
missing) performs no page operation and raises no error: without step
tracing the run is exactly the run of the remaining actions, and with
step tracing the only work of that iteration is the per-step diagnostic
snapshot, after which execution continues with the next action. -/
theorem C10_malformed_actions :
    (∀ i a, recognized a = false → stepOps i a = [])
    ∧ (∀ exec i a rest, recognized a = false →
        runActions exec false i (a :: rest) = runActions exec false (i + 1) rest)
    ∧ (∀ exec i a rest, recognized a = false →
        runActions exec true i (a :: rest) =
          match exec (Effect.stepShot (i + 1)) with
          | Except.error m => Except.error m
          | Except.ok _ =>
              match runActions exec true (i + 1) rest with
              | Except.error m => Except.error m
              | Except.ok tr => Except.ok (Effect.stepShot (i + 1) :: tr)) := by
  refine ⟨fun i a h => stepOps_malformed i a h, ?_, ?_⟩
  · intro exec i a rest h
    simp only [runActions, stepOps_malformed i a h, execOps]
    cases hr : runActions exec false (i + 1) rest <;> simp
  · intro exec i a rest h
    simp only [runActions, stepOps_malformed i a h, execOps]
    cases hs : exec (Effect.stepShot (i + 1)) <;>
      cases hr : runActions exec true (i + 1) rest <;> simp

theorem C10_malformed_actions_witness :
    stepOps 0 badClick = []
    ∧ runActions (fun _ => Except.ok ()) false 0 [badClickAt]
        = runActions (fun _ => Except.ok ()) false 1 []
    ∧ stepOps 2 unknownAction = [] :=
  ⟨C10_malformed_actions.1 0 badClick (by decide),
   C10_malformed_actions.2.1 (fun _ => Except.ok ()) 0 badClickAt [] (by decide),
   C10_malformed_actions.1 2 unknownAction (by decide)⟩

end WebWatch
